import Mathlib

/-!
Verification of the evaluation script `eval.py` of the MaskFaceRecog
repository.  The script evaluates a pretrained face-verification model:
it normalizes pixel data, runs a black-box network to obtain embeddings,
L2-normalizes the embeddings, computes a similarity score
`1 - cdist(e1, e2) / 2` per paired row, aggregates genuine and impostor
score lists over the data-loader batches, computes metrics and writes
them to disk.

The embedding below is shallow: tensors of floats become real vectors
(`Fin d → Real`) and lists of such vectors; the black-box network, the
data loader and the metrics library are abstract parameters; a raised
library exception (for instance an out-of-range tensor index) is
modelled by `Option` with `none` for the raised error.  The main
procedure is additionally modelled by its trace of externally visible
events, in program order.
-/

namespace MaskFaceRecog

noncomputable section

/-- An embedding vector of dimension `d` (one row of a batch tensor). -/
def Vec (d : ℕ) : Type := Fin d → ℝ

instance {d : ℕ} : Inhabited (Vec d) := ⟨fun _ => 0⟩

/-- Pixel normalization performed by `generate_embeddings`
(line 38 of eval.py): `img = ((data / 255) - 0.5) / 0.5`, applied
elementwise to the image tensor. -/
def pixelNormalize (v : ℝ) : ℝ := ((v / 255) - 0.5) / 0.5

/-- The black-box FocusFace network, abstracted as a function from an
image batch (each image a list of pixel values) and a target identity
to a batch of embeddings.  This stands for the value
`net(img, target, inference=True)[1]` of eval.py line 41. -/
def Net (d : ℕ) : Type := List (List ℝ) → ℤ → List (Vec d)

/-- Shallow embedding of `generate_embeddings` (eval.py lines 28-43):
the input data is pixel-normalized and then passed to the network. -/
def generate_embeddings {d : ℕ} (net : Net d) (target : ℤ)
    (data : List (List ℝ)) : List (Vec d) :=
  net (data.map (fun img => img.map pixelNormalize)) target

/-- Euclidean (L2) distance between two rows, the value of
`torch.cdist(embed1[i].reshape(1,-1), embed2[i].reshape(1,-1))[0][0]`
with the default `p = 2`. -/
def l2dist {d : ℕ} (v w : Vec d) : ℝ :=
  Real.sqrt (∑ j, (v j - w j) ^ 2)

/-- Shallow embedding of `embedding_dist` (eval.py lines 46-63): for
each `i` in `range(embed1.shape[0])` the score
`1 - cdist(embed1[i], embed2[i]) / 2` is appended to a Python list.
Indexing `embed2[i]` out of range raises, modelled by `none`. -/
def embedding_dist {d : ℕ} (embed1 embed2 : List (Vec d)) :
    Option (List ℝ) :=
  (List.range embed1.length).mapM (fun i =>
    match embed1.get? i, embed2.get? i with
    | some v, some w => some (1 - l2dist v w / 2)
    | _, _ => none)

/-- The `eps` default of `torch.nn.functional.normalize`. -/
def epsNorm : ℝ := 1 / 1000000000000

/-- Row-wise L2 normalization, `torch.nn.functional.normalize` with its
defaults `p = 2`, `dim = 1`, `eps = 1e-12`: each row is divided by
`max(norm(row), eps)`. -/
def l2normalize {d : ℕ} (v : Vec d) : Vec d :=
  fun j => v j / max (Real.sqrt (∑ k, (v k) ^ 2)) epsNorm

/-- One batch yielded by the data loader, holding the values the loop
body of `evaluate` reads: `gen.target[0]`, `gen.masked`,
`gen.unmasked`, `imp.target[1]`, `imp.masked`, `imp.unmasked`
(eval.py lines 84-87; moving to the device leaves values unchanged). -/
structure Batch (d : ℕ) where
  genTarget : ℤ
  genMasked : List (List ℝ)
  genUnmasked : List (List ℝ)
  impTarget : ℤ
  impMasked : List (List ℝ)
  impUnmasked : List (List ℝ)

/-- Genuine scores of one batch (eval.py lines 90-92 and 99):
embeddings of the masked and unmasked genuine images, row-normalized,
then `embedding_dist`. -/
def batchGScores {d : ℕ} (net : Net d) (b : Batch d) : Option (List ℝ) :=
  embedding_dist
    ((generate_embeddings net b.genTarget b.genMasked).map l2normalize)
    ((generate_embeddings net b.genTarget b.genUnmasked).map l2normalize)

/-- Impostor scores of one batch (eval.py lines 94-96 and 100). -/
def batchIScores {d : ℕ} (net : Net d) (b : Batch d) : Option (List ℝ) :=
  embedding_dist
    ((generate_embeddings net b.impTarget b.impMasked).map l2normalize)
    ((generate_embeddings net b.impTarget b.impUnmasked).map l2normalize)

/-- Both score lists of one batch; `none` when either raises. -/
def batchScores {d : ℕ} (net : Net d) (b : Batch d) :
    Option (List ℝ × List ℝ) :=
  match batchGScores net b, batchIScores net b with
  | some g, some i => some (g, i)
  | _, _ => none

/-- One iteration of the loop of `evaluate` (eval.py lines 82-103): on
a pending error nothing more happens; otherwise the per-batch scores
extend `gscores` and `iscores`.  The network component of the state is
only read, never reassigned, exactly as in the loop body. -/
def evalStep {d : ℕ} (acc : Option (List ℝ × List ℝ) × Net d)
    (b : Batch d) : Option (List ℝ × List ℝ) × Net d :=
  match acc with
  | (none, net) => (none, net)
  | (some (gs, is), net) =>
    match batchScores net b with
    | none => (none, net)
    | some (g, i) => (some (gs ++ g, is ++ i), net)

/-- The loop of `evaluate` over all batches, starting from
`gscores, iscores = [], []` (eval.py line 80), threading the network
state. -/
def evalBatches {d : ℕ} (net : Net d) (batches : List (Batch d)) :
    Option (List ℝ × List ℝ) × Net d :=
  batches.foldl evalStep (some ([], []), net)

/-- Shallow embedding of `evaluate` (eval.py lines 66-105): run the
loop, then hand `model_dir`, `gscores` and `iscores` to the external
`evaluate_metrics` function, abstracted as `metricsFn`. -/
def evaluate {d : ℕ} {M : Type} (model_dir : String)
    (metricsFn : String → List ℝ → List ℝ → M) (net : Net d)
    (batches : List (Batch d)) : Option M :=
  ((evalBatches net batches).1).map (fun p => metricsFn model_dir p.1 p.2)

/-- Result of the main procedure (eval.py lines 108-141): the data
loader and the checkpoint load may each fail (`none`), and then
`evaluate` runs; any failure propagates, nothing is caught. -/
def mainRun {d : ℕ} {M : Type} (model_dir : String)
    (metricsFn : String → List ℝ → List ℝ → M)
    (loader : Option (List (Batch d))) (ckpt : Option (Net d)) :
    Option M := do
  let batches ← loader
  let net ← ckpt
  evaluate model_dir metricsFn net batches

/-- Semantics of `os.path.join` for two components, as used by the
main procedure. -/
def pathJoin (a b : String) : String :=
  if b.startsWith "/" then b
  else if a = "" then b
  else if a.endsWith "/" then a ++ b
  else a ++ "/" ++ b

/-- Externally visible events of the main procedure, in program
order. -/
inductive Event where
  | manualSeed (seed : ℕ)
  | setLogger (path : String)
  | loadDataset (dir : String)
  | buildModel
  | loadCheckpoint (path : String)
  | processBatch (idx : ℕ)
  | computeMetrics
  | saveJson (path : String)
deriving DecidableEq

/-- Event trace of `evaluate` on a loader yielding `n` batches: the
batches are processed in order, then `evaluate_metrics` is called
(eval.py lines 82-105). -/
def evaluateTrace (n : ℕ) : List Event :=
  (List.range n).map Event.processBatch ++ [Event.computeMetrics]

/-- Event trace of the main procedure (eval.py lines 108-141): seed,
logger to `model_dir/test.log`, dataset load, model build, checkpoint
load from `model_dir/<pretrained>.pth.tar`, the evaluation loop, and
finally the metrics JSON written to
`model_dir/test_metrics_<pretrained>.json`. -/
def mainTrace (data_dir model_dir pretrained : String) (n : ℕ) :
    List Event :=
  [Event.manualSeed 230,
   Event.setLogger (pathJoin model_dir "test.log"),
   Event.loadDataset data_dir,
   Event.buildModel,
   Event.loadCheckpoint (pathJoin model_dir (pretrained ++ ".pth.tar"))]
    ++ evaluateTrace n
    ++ [Event.saveJson
          (pathJoin model_dir ("test_metrics_" ++ pretrained ++ ".json"))]

/-- Concrete one-dimensional zero embedding, used as a test vector. -/
def vex0 : Vec 1 := fun _ => 0

/-- Concrete one-dimensional unit-norm embedding, used as a test
vector. -/
def vex1 : Vec 1 := fun _ => 1

/-- Concrete network producing an empty embedding batch. -/
def netEx0 : Net 1 := fun _ _ => []

/-- Concrete network mapping every image of a batch to the zero
embedding, so the embedding batch has the same length as the image
batch. -/
def netExZero : Net 1 := fun data _ => data.map (fun _ => vex0)

/-- Concrete batch whose genuine masked and unmasked image lists have
different lengths, which makes `embedding_dist` raise. -/
def batchExFail : Batch 1 :=
  { genTarget := 0, genMasked := [[0]], genUnmasked := [],
    impTarget := 0, impMasked := [], impUnmasked := [] }

end

/-! Helper lemmas about `List.mapM` in the `Option` monad. -/

lemma mapM_eq_some_map {α β : Type} (f : α → Option β) (g : α → β) :
    ∀ l : List α, (∀ a ∈ l, f a = some (g a)) → l.mapM f = some (l.map g) := by
  intro l
  induction l with
  | nil => intro _; rfl
  | cons x xs ih =>
    intro h
    rw [List.mapM_cons, h x (List.mem_cons_self x xs),
      ih (fun a ha => h a (List.mem_cons_of_mem x ha))]
    rfl

lemma mapM_length {α β : Type} (f : α → Option β) :
    ∀ (l : List α) (r : List β), l.mapM f = some r → r.length = l.length := by
  intro l
  induction l with
  | nil =>
    intro r h
    have hr : r = [] := by
      rw [List.mapM_nil] at h
      injection h with h2
      exact h2.symm
    simp [hr]
  | cons x xs ih =>
    intro r h
    rw [List.mapM_cons] at h
    cases hfx : f x with
    | none => rw [hfx] at h; simp at h
    | some b =>
      rw [hfx] at h
      cases hxs : xs.mapM f with
      | none => rw [hxs] at h; simp at h
      | some bs =>
        rw [hxs] at h
        simp only [Option.bind_some, Option.pure_def, Option.bind_eq_bind,
          Option.some_bind, Option.some.injEq] at h
        subst h
        simp [ih bs hxs]

lemma mapM_get? {α β : Type} (f : α → Option β) :
    ∀ (l : List α) (r : List β), l.mapM f = some r →
      ∀ (i : ℕ) (s : β), r.get? i = some s →
        ∃ a, l.get? i = some a ∧ f a = some s := by
  intro l
  induction l with
  | nil =>
    intro r h i s hs
    have hr : r = [] := by
      rw [List.mapM_nil] at h
      injection h with h2
      exact h2.symm
    subst hr
    simp at hs
  | cons x xs ih =>
    intro r h i s hs
    rw [List.mapM_cons] at h
    cases hfx : f x with
    | none => rw [hfx] at h; simp at h
    | some b =>
      rw [hfx] at h
      cases hxs : xs.mapM f with
      | none => rw [hxs] at h; simp at h
      | some bs =>
        rw [hxs] at h
        simp only [Option.bind_some, Option.pure_def, Option.bind_eq_bind,
          Option.some_bind, Option.some.injEq] at h
        subst h
        cases i with
        | zero =>
          simp only [List.get?] at hs
          exact ⟨x, rfl, by rw [hfx, hs]⟩
        | succ n =>
          simp only [List.get?] at hs ⊢
          exact ih bs hxs n s hs

lemma mapM_eq_none_of_mem {α β : Type} (f : α → Option β) :
    ∀ (l : List α) (a : α), a ∈ l → f a = none → l.mapM f = none := by
  intro l
  induction l with
  | nil => intro a ha; cases ha
  | cons x xs ih =>
    intro a ha hfa
    rw [List.mapM_cons]
    rcases List.mem_cons.mp ha with h | h
    · rw [h] at hfa
      rw [hfa]
      rfl
    · cases hfx : f x with
      | none => rfl
      | some b => rw [ih a h hfa]; rfl

/-! Helper lemmas about `embedding_dist` and the L2 distance. -/

lemma embedding_dist_eq {d : ℕ} (e1 e2 : List (Vec d))
    (h : e1.length ≤ e2.length) :
    embedding_dist e1 e2 =
      some ((List.range e1.length).map
        (fun i => 1 - l2dist (e1.getD i default) (e2.getD i default) / 2)) := by
  apply mapM_eq_some_map
  intro i hi
  rw [List.mem_range] at hi
  cases hx1 : e1.get? i with
  | none =>
    rw [List.get?_eq_none] at hx1
    omega
  | some v =>
    cases hx2 : e2.get? i with
    | none =>
      rw [List.get?_eq_none] at hx2
      omega
    | some w =>
      simp [List.getD_eq_getElem?_getD, ← List.get?_eq_getElem?, hx1, hx2]

lemma embedding_dist_elem {d : ℕ} (e1 e2 : List (Vec d)) (l : List ℝ)
    (i : ℕ) (s : ℝ) (hl : embedding_dist e1 e2 = some l)
    (hs : l.get? i = some s) :
    ∃ v w, e1.get? i = some v ∧ e2.get? i = some w ∧
      s = 1 - l2dist v w / 2 := by
  obtain ⟨a, ha, hfa⟩ := mapM_get? _ _ _ hl i s hs
  have hi : i < e1.length := by
    by_contra hcon
    rw [List.get?_eq_none.mpr (by simpa using Nat.le_of_not_lt hcon)] at ha
    exact Option.noConfusion ha
  have hai : a = i := by
    rw [List.get?_range hi] at ha
    exact (Option.some.injEq _ _ ▸ ha).symm
  subst hai
  cases h1 : e1.get? a with
  | none => rw [h1] at hfa; cases h2 : e2.get? a <;> rw [h2] at hfa <;>
      exact Option.noConfusion hfa
  | some v =>
    cases h2 : e2.get? a with
    | none => rw [h1, h2] at hfa; exact Option.noConfusion hfa
    | some w =>
      rw [h1, h2] at hfa
      exact ⟨v, w, rfl, rfl, (Option.some.injEq _ _ ▸ hfa).symm⟩

lemma l2dist_nonneg {d : ℕ} (v w : Vec d) : 0 ≤ l2dist v w :=
  Real.sqrt_nonneg _

lemma l2dist_le_two {d : ℕ} (v w : Vec d)
    (hv : ∑ j, (v j) ^ 2 = 1) (hw : ∑ j, (w j) ^ 2 = 1) :
    l2dist v w ≤ 2 := by
  have hbound : ∑ j, (v j - w j) ^ 2 ≤ 4 := by
    have hle : ∀ j ∈ Finset.univ, (v j - w j) ^ 2 ≤
        2 * (v j) ^ 2 + 2 * (w j) ^ 2 := by
      intro j _
      nlinarith [sq_nonneg (v j + w j)]
    calc ∑ j, (v j - w j) ^ 2
        ≤ ∑ j, (2 * (v j) ^ 2 + 2 * (w j) ^ 2) := Finset.sum_le_sum hle
      _ = 2 * (∑ j, (v j) ^ 2) + 2 * (∑ j, (w j) ^ 2) := by
          rw [Finset.sum_add_distrib, Finset.mul_sum, Finset.mul_sum]
      _ = 4 := by rw [hv, hw]; norm_num
  calc l2dist v w = Real.sqrt (∑ j, (v j - w j) ^ 2) := rfl
    _ ≤ Real.sqrt 4 := Real.sqrt_le_sqrt hbound
    _ = 2 := by
        rw [show (4 : ℝ) = 2 ^ 2 by norm_num,
          Real.sqrt_sq (by norm_num : (0 : ℝ) ≤ 2)]

lemma score_bounds {d : ℕ} (v w : Vec d)
    (hv : ∑ j, (v j) ^ 2 = 1) (hw : ∑ j, (w j) ^ 2 = 1) :
    -1 ≤ 1 - l2dist v w / 2 ∧ 1 - l2dist v w / 2 ≤ 1 := by
  have h0 := l2dist_nonneg v w
  have h2 := l2dist_le_two v w hv hw
  constructor <;> linarith

/-! Helper lemmas about the evaluation loop. -/

lemma evalStep_snd {d : ℕ} (acc : Option (List ℝ × List ℝ) × Net d)
    (b : Batch d) : (evalStep acc b).2 = acc.2 := by
  rcases acc with ⟨r, net⟩
  cases r with
  | none => rfl
  | some p =>
    rcases p with ⟨gs, is⟩
    cases hb : batchScores net b with
    | none => simp [evalStep, hb]
    | some gi => rcases gi with ⟨g, i⟩; simp [evalStep, hb]

lemma foldl_evalStep_snd {d : ℕ} :
    ∀ (bs : List (Batch d)) (acc : Option (List ℝ × List ℝ) × Net d),
      (bs.foldl evalStep acc).2 = acc.2 := by
  intro bs
  induction bs with
  | nil => intro acc; rfl
  | cons b rest ih =>
    intro acc
    rw [List.foldl_cons, ih, evalStep_snd]

lemma foldl_evalStep_none {d : ℕ} (net : Net d) :
    ∀ bs : List (Batch d), bs.foldl evalStep (none, net) = (none, net) := by
  intro bs
  induction bs with
  | nil => rfl
  | cons b rest ih =>
    rw [List.foldl_cons]
    exact ih

lemma foldl_evalStep_some {d : ℕ} (net : Net d) :
    ∀ (bs : List (Batch d)) (gs is : List ℝ),
      bs.foldl evalStep (some (gs, is), net) =
        ((bs.mapM (batchScores net)).map
          (fun rs => (gs ++ (rs.map Prod.fst).join,
                      is ++ (rs.map Prod.snd).join)), net) := by
  intro bs
  induction bs with
  | nil =>
    intro gs is
    rw [show ([] : List (Batch d)).mapM (batchScores net) = some [] from rfl]
    simp
  | cons b rest ih =>
    intro gs is
    rw [List.foldl_cons]
    cases hb : batchScores net b with
    | none =>
      have hstep : evalStep (some (gs, is), net) b = (none, net) := by
        simp [evalStep, hb]
      rw [hstep, foldl_evalStep_none, List.mapM_cons, hb]
      rfl
    | some gi =>
      rcases gi with ⟨g, i⟩
      have hstep : evalStep (some (gs, is), net) b =
          (some (gs ++ g, is ++ i), net) := by
        simp [evalStep, hb]
      rw [hstep, ih, List.mapM_cons, hb]
      cases hrest : rest.mapM (batchScores net) with
      | none => simp
      | some rs => simp

/-! Claim theorems. -/

/-- C1: for every pair of embedding batches with the same first
dimension `n`, `embedding_dist` returns, per index `i < n`, the score
`1 - d / 2` where `d` is the Euclidean distance between the paired
rows, one score per row. -/
theorem embedding_dist_per_row {d : ℕ} (e1 e2 : List (Vec d)) (i : ℕ)
    (v w : Vec d) (hlen : e1.length = e2.length)
    (h1 : e1.get? i = some v) (h2 : e2.get? i = some w) :
    ∃ l, embedding_dist e1 e2 = some l ∧ l.length = e1.length ∧
      l.get? i = some (1 - l2dist v w / 2) := by
  refine ⟨_, embedding_dist_eq e1 e2 hlen.le, by simp, ?_⟩
  have hi : i < e1.length := by
    by_contra hcon
    rw [List.get?_eq_none.mpr (Nat.le_of_not_lt hcon)] at h1
    exact Option.noConfusion h1
  rw [List.get?_map, List.get?_range hi]
  simp [List.getD_eq_getElem?_getD, ← List.get?_eq_getElem?, h1, h2]

/-- Witness for C1 at a concrete pair of singleton batches. -/
theorem embedding_dist_per_row_witness :
    ([vex0].length = [vex0].length) ∧
    ([vex0].get? 0 = some vex0) ∧
    ∃ l, embedding_dist [vex0] [vex0] = some l ∧ l.length = [vex0].length ∧
      l.get? 0 = some (1 - l2dist vex0 vex0 / 2) :=
  ⟨rfl, rfl, embedding_dist_per_row [vex0] [vex0] 0 vex0 vex0 rfl rfl rfl⟩

/-- C2: for every pair of L2-normalized (unit-norm) embedding vectors,
the similarity score produced by `embedding_dist` for that pair lies in
the interval from -1 to 1. -/
theorem similarity_score_range {d : ℕ} (e1 e2 : List (Vec d)) (i : ℕ)
    (v w : Vec d) (l : List ℝ) (s : ℝ)
    (hv : ∑ j, (v j) ^ 2 = 1) (hw : ∑ j, (w j) ^ 2 = 1)
    (h1 : e1.get? i = some v) (h2 : e2.get? i = some w)
    (hl : embedding_dist e1 e2 = some l) (hs : l.get? i = some s) :
    -1 ≤ s ∧ s ≤ 1 := by
  obtain ⟨v2, w2, h1b, h2b, hsv⟩ := embedding_dist_elem e1 e2 l i s hl hs
  rw [h1] at h1b
  rw [h2] at h2b
  have hveq : v = v2 := Option.some.injEq _ _ ▸ h1b
  have hweq : w = w2 := Option.some.injEq _ _ ▸ h2b
  rw [hsv, ← hveq, ← hweq]
  exact score_bounds v w hv hw

/-- Witness for C2 at a concrete pair of unit vectors. -/
theorem similarity_score_range_witness :
    (∑ j, (vex1 j) ^ 2 = 1) ∧
    (embedding_dist [vex1] [vex1] = some [1 - l2dist vex1 vex1 / 2]) ∧
    (-1 ≤ 1 - l2dist vex1 vex1 / 2 ∧ 1 - l2dist vex1 vex1 / 2 ≤ 1) :=
  ⟨by simp [vex1], rfl,
    similarity_score_range [vex1] [vex1] 0 vex1 vex1
      [1 - l2dist vex1 vex1 / 2] (1 - l2dist vex1 vex1 / 2)
      (by simp [vex1]) (by simp [vex1]) rfl rfl rfl rfl⟩

/-- C9: whenever `embedding_dist` returns without raising, its value
is a list of exactly `n` scalar scores, where `n` is the first
dimension of the first batch. -/
theorem embedding_dist_list_length {d : ℕ} (e1 e2 : List (Vec d))
    (l : List ℝ) (h : embedding_dist e1 e2 = some l) :
    l.length = e1.length := by
  have hlen := mapM_length _ _ _ h
  simpa using hlen

/-- Witness for C9 at a concrete pair of singleton batches. -/
theorem embedding_dist_list_length_witness :
    (embedding_dist [vex0] [vex0] = some [1 - l2dist vex0 vex0 / 2]) ∧
    ([1 - l2dist vex0 vex0 / 2].length = [vex0].length) :=
  ⟨rfl, embedding_dist_list_length [vex0] [vex0] _ rfl⟩

/-- C10: the evaluation loop leaves the network state unchanged; the
network after the loop is the network passed in, for every batch
list. -/
theorem evaluate_preserves_net {d : ℕ} (net : Net d)
    (bs : List (Batch d)) : (evalBatches net bs).2 = net := by
  rw [evalBatches, foldl_evalStep_snd]

/-- C4: the genuine and impostor score lists built by the loop of
`evaluate` are exactly the concatenation, in batch-iteration order, of
the per-batch score lists, each batch keeping its within-batch index
order. -/
theorem scores_concat_in_order {d : ℕ} (net : Net d)
    (bs : List (Batch d)) :
    (evalBatches net bs).1 =
      (bs.mapM (batchScores net)).map
        (fun rs => ((rs.map Prod.fst).join, (rs.map Prod.snd).join)) := by
  rw [evalBatches, foldl_evalStep_some]
  cases bs.mapM (batchScores net) <;> simp

/-- C3: two runs of `evaluate` on identical inputs (same network, same
batches, same metrics function) produce identical score lists and
identical metrics. -/
theorem evaluate_deterministic {d : ℕ} {M : Type} (md : String)
    (mFn : String → List ℝ → List ℝ → M) (net1 net2 : Net d)
    (bs1 bs2 : List (Batch d)) (hnet : net1 = net2) (hbs : bs1 = bs2) :
    (evalBatches net1 bs1).1 = (evalBatches net2 bs2).1 ∧
    evaluate md mFn net1 bs1 = evaluate md mFn net2 bs2 := by
  subst hnet
  subst hbs
  exact ⟨rfl, rfl⟩

/-- Witness for C3 at a concrete network and batch list. -/
theorem evaluate_deterministic_witness :
    (netEx0 = netEx0) ∧ (([] : List (Batch 1)) = []) ∧
    ((evalBatches netEx0 ([] : List (Batch 1))).1 =
        (evalBatches netEx0 []).1 ∧
      evaluate "m" (fun _ _ _ => (0 : ℕ)) netEx0 [] =
        evaluate "m" (fun _ _ _ => (0 : ℕ)) netEx0 []) :=
  ⟨rfl, rfl,
    evaluate_deterministic "m" (fun _ _ _ => (0 : ℕ)) netEx0 netEx0 [] []
      rfl rfl⟩

/-- C6: no failure is caught: a batch whose score computation raises
makes the loop, `evaluate` and the main procedure fail, and a failed
checkpoint load makes the main procedure fail; no fallback value is
produced. -/
theorem failure_propagates {d : ℕ} {M : Type} (md : String)
    (mFn : String → List ℝ → List ℝ → M) (net : Net d)
    (bs : List (Batch d)) (b : Batch d)
    (loader : Option (List (Batch d)))
    (hb : b ∈ bs) (hfail : batchScores net b = none) :
    (evalBatches net bs).1 = none ∧
    evaluate md mFn net bs = none ∧
    mainRun md mFn (some bs) (some net) = none ∧
    mainRun md mFn loader (none : Option (Net d)) = none := by
  have h1 : (evalBatches net bs).1 = none := by
    rw [evalBatches, foldl_evalStep_some,
      mapM_eq_none_of_mem (batchScores net) bs b hb hfail]
    rfl
  have h2 : evaluate md mFn net bs = none := by
    rw [evaluate, h1]
    rfl
  refine ⟨h1, h2, ?_, ?_⟩
  · simp [mainRun, h2]
  · cases loader <;> rfl

/-- Witness for C6 at a concrete failing batch. -/
theorem failure_propagates_witness :
    (batchExFail ∈ [batchExFail]) ∧
    (batchScores netExZero batchExFail = none) ∧
    ((evalBatches netExZero [batchExFail]).1 = none ∧
      evaluate "m" (fun _ _ _ => (0 : ℕ)) netExZero [batchExFail] = none ∧
      mainRun "m" (fun _ _ _ => (0 : ℕ)) (some [batchExFail])
        (some netExZero) = none ∧
      mainRun "m" (fun _ _ _ => (0 : ℕ))
        (none : Option (List (Batch 1))) (none : Option (Net 1)) = none) :=
  ⟨List.mem_singleton.mpr rfl, rfl,
    failure_propagates "m" (fun _ _ _ => (0 : ℕ)) netExZero [batchExFail]
      batchExFail none (List.mem_singleton.mpr rfl) rfl⟩

/-- C5: `generate_embeddings` maps each pixel value `v` in the range
from 0 to 255 to `((v / 255) - 0.5) / 0.5 = v / 127.5 - 1`, a
zero-centered value between -1 and 1, and passes the normalized data
to the model. -/
theorem generate_embeddings_normalizes {d : ℕ} (net : Net d) (t : ℤ)
    (data : List (List ℝ)) (v : ℝ) (h0 : 0 ≤ v) (h255 : v ≤ 255) :
    generate_embeddings net t data =
      net (data.map (fun img => img.map pixelNormalize)) t ∧
    pixelNormalize v = v / 127.5 - 1 ∧
    -1 ≤ pixelNormalize v ∧ pixelNormalize v ≤ 1 := by
  have heq : pixelNormalize v = v / 127.5 - 1 := by
    rw [show pixelNormalize v = ((v / 255) - 0.5) / 0.5 from rfl]
    norm_num
    ring
  have hlo : 0 ≤ v / 127.5 := by positivity
  have hhi : v / 127.5 ≤ 2 := by
    rw [div_le_iff (by norm_num : (0 : ℝ) < 127.5)]
    linarith
  exact ⟨rfl, heq, by rw [heq]; linarith, by rw [heq]; linarith⟩

/-- Witness for C5 at pixel value 100. -/
theorem generate_embeddings_normalizes_witness :
    ((0 : ℝ) ≤ 100) ∧ ((100 : ℝ) ≤ 255) ∧
    (generate_embeddings netEx0 0 [] =
        netEx0 (([] : List (List ℝ)).map (fun img => img.map pixelNormalize)) 0 ∧
      pixelNormalize 100 = 100 / 127.5 - 1 ∧
      -1 ≤ pixelNormalize (100 : ℝ) ∧ pixelNormalize (100 : ℝ) ≤ 1) :=
  ⟨by norm_num, by norm_num,
    generate_embeddings_normalizes netEx0 0 [] 100 (by norm_num)
      (by norm_num)⟩

/-- C7: the main procedure loads the checkpoint from
`join(model_dir, pretrained + ".pth.tar")`, writes the metrics to
`join(model_dir, "test_metrics_" + pretrained + ".json")` and directs
logging to `join(model_dir, "test.log")`, for every value of the CLI
arguments. -/
theorem main_file_paths (dd md pt p : String) (n : ℕ) :
    (Event.loadCheckpoint p ∈ mainTrace dd md pt n ↔
      p = pathJoin md (pt ++ ".pth.tar")) ∧
    (Event.saveJson p ∈ mainTrace dd md pt n ↔
      p = pathJoin md ("test_metrics_" ++ pt ++ ".json")) ∧
    (Event.setLogger p ∈ mainTrace dd md pt n ↔
      p = pathJoin md "test.log") := by
  refine ⟨?_, ?_, ?_⟩ <;> simp [mainTrace, evaluateTrace]

/-- C8: the main procedure performs its steps in program order: the
dataset load precedes the model build, which precedes the checkpoint
load, which precedes every batch of the evaluation loop; the metrics
are computed only after every batch, and the results are written only
after the metrics. -/
theorem main_step_order (dd md pt : String) (n i : ℕ) (h : i < n) :
    (mainTrace dd md pt n).get? 2 = some (Event.loadDataset dd) ∧
    (mainTrace dd md pt n).get? 3 = some Event.buildModel ∧
    (mainTrace dd md pt n).get? 4 =
      some (Event.loadCheckpoint (pathJoin md (pt ++ ".pth.tar"))) ∧
    (mainTrace dd md pt n).get? (i + 5) = some (Event.processBatch i) ∧
    (mainTrace dd md pt n).get? (n + 5) = some Event.computeMetrics ∧
    (mainTrace dd md pt n).get? (n + 6) =
      some (Event.saveJson
        (pathJoin md ("test_metrics_" ++ pt ++ ".json"))) ∧
    (mainTrace dd md pt n).length = n + 7 := by
  have hpeel : ∀ k : ℕ, (mainTrace dd md pt n).get? (k + 5) =
      (evaluateTrace n ++
        [Event.saveJson
          (pathJoin md ("test_metrics_" ++ pt ++ ".json"))]).get? k :=
    fun k => rfl
  refine ⟨rfl, rfl, rfl, ?_, ?_, ?_, ?_⟩
  · rw [hpeel i,
      List.get?_append (by simp [evaluateTrace]; omega),
      evaluateTrace,
      List.get?_append (by simpa using h),
      List.get?_map, List.get?_range h]
    rfl
  · rw [hpeel n,
      List.get?_append (by simp [evaluateTrace]),
      evaluateTrace,
      List.get?_append_right (by simp)]
    simp
  · rw [show n + 6 = (n + 1) + 5 by omega, hpeel (n + 1),
      List.get?_append_right (by simp [evaluateTrace])]
    simp [evaluateTrace]
  · simp [mainTrace, evaluateTrace]

/-- Witness for C8 with one batch. -/
theorem main_step_order_witness :
    (0 < 1) ∧
    ((mainTrace "d" "m" "p" 1).get? 2 = some (Event.loadDataset "d") ∧
      (mainTrace "d" "m" "p" 1).get? 3 = some Event.buildModel ∧
      (mainTrace "d" "m" "p" 1).get? 4 =
        some (Event.loadCheckpoint (pathJoin "m" ("p" ++ ".pth.tar"))) ∧
      (mainTrace "d" "m" "p" 1).get? (0 + 5) =
        some (Event.processBatch 0) ∧
      (mainTrace "d" "m" "p" 1).get? (1 + 5) = some Event.computeMetrics ∧
      (mainTrace "d" "m" "p" 1).get? (1 + 6) =
        some (Event.saveJson
          (pathJoin "m" ("test_metrics_" ++ "p" ++ ".json"))) ∧
      (mainTrace "d" "m" "p" 1).length = 1 + 7) :=
  ⟨Nat.zero_lt_one, main_step_order "d" "m" "p" 1 0 Nat.zero_lt_one⟩

end MaskFaceRecog
